import Mathlib

/-!
Verification of the Secure-Chanel realtime chat service against its
specification.  The repository ships the browser client (message input,
chat window, reply / pagination layer) and deployment material; the
Flask/SocketIO backend (`app.py`) holding the Message Store, the Identity
and Session Store, the Abuse Guard and the Connection Manager is not part
of the shipped sources.  Backend operations are therefore modelled from
the specification text, while client-side behaviour is embedded directly
from the JavaScript sources.
-/

namespace SecureChanel

/-- Message kinds, as enumerated by the spec (`text`, `image`, `video`,
`audio`, `file`) and by the client `type` field. -/
inductive Kind where
  | text
  | image
  | video
  | audio
  | file
deriving DecidableEq, Repr

/-- Modelled from the spec: the Reply Snapshot of §3 — a denormalized copy
of the referenced message author, kind and body taken at reply-construction
time (the backend that stores it is not under the shipped sources). -/
structure ReplySnapshot where
  author : String
  kind : Kind
  body : String
deriving DecidableEq, Repr

/-- Modelled from the spec: the Message record of §3 (identifier, author,
body, kind, creation timestamp, optional `reply_to`, optional snapshot);
the backend `app.py` holding it is not under the shipped sources. -/
structure Message where
  id : Nat
  author : String
  body : String
  kind : Kind
  timestamp : Nat
  reply_to : Option Nat
  reply_snapshot : Option ReplySnapshot
deriving DecidableEq, Repr

/-- Modelled from the spec: the Message Store state of §4.3 — the ordered
append-only log together with the monotonic identifier counter; the
backend `app.py` holding it is not under the shipped sources. -/
structure Store where
  log : List Message
  nextId : Nat
deriving DecidableEq, Repr

/-- Errors of the Message Store `append` operation (§4.3 / §7). -/
inductive AppendError where
  | InvalidReply
  | EmptyBody
deriving DecidableEq, Repr

/-- Strips leading and trailing whitespace, as JavaScript `.trim()` and
Python `.strip()` do on the message body. -/
def strTrim (s : String) : String :=
  ⟨((s.data.dropWhile Char.isWhitespace).reverse.dropWhile Char.isWhitespace).reverse⟩

/-- Looks up the message with the given identifier in the log. -/
def findById (s : Store) (i : Nat) : Option Message :=
  s.log.find? (fun m => m.id == i)

/-- Modelled from the spec: §4.3 `append(author, kind, body, reply_to?)` —
fails with `EmptyBody` if the body is empty/whitespace for `text` kind,
validates `reply_to` against the §3 invariant (fails with `InvalidReply`
when dangling, forward or self referencing), snapshots the reply context,
assigns the next monotonic identifier and appends to the ordered log.
The backend `app.py` implementing it is not under the shipped sources. -/
def appendMsg (s : Store) (author : String) (kind : Kind) (body : String)
    (ts : Nat) (reply_to : Option Nat) : Except AppendError (Store × Message) :=
  if kind = Kind.text ∧ strTrim body = "" then
    .error .EmptyBody
  else
    match reply_to with
    | none =>
      let m : Message :=
        { id := s.nextId, author := author, body := body, kind := kind,
          timestamp := ts, reply_to := none, reply_snapshot := none }
      .ok ({ log := s.log ++ [m], nextId := s.nextId + 1 }, m)
    | some r =>
      match findById s r with
      | none => .error .InvalidReply
      | some p =>
        let m : Message :=
          { id := s.nextId, author := author, body := body, kind := kind,
            timestamp := ts, reply_to := some r,
            reply_snapshot := some { author := p.author, kind := p.kind, body := p.body } }
        .ok ({ log := s.log ++ [m], nextId := s.nextId + 1 }, m)

/-- Modelled from the spec: §4.3 `clear_all()` — atomically empties the log
and does not reset the identifier counter.  The backend `app.py`
implementing it is not under the shipped sources. -/
def clear_all (s : Store) : Store :=
  { log := [], nextId := s.nextId }

/-- Modelled from the spec: §4.3 `tail(limit)` — the most recent `limit`
messages, ascending.  The backend `app.py` implementing it is not under
the shipped sources. -/
def tail (s : Store) (limit : Nat) : List Message :=
  s.log.drop (s.log.length - limit)

/-- Modelled from the spec: §4.3 `page_before(cursor_timestamp, limit)` —
up to `limit` messages with timestamp strictly below the cursor, in
ascending order, plus whether older messages remain beyond this page.
The backend `app.py` implementing it is not under the shipped sources. -/
def page_before (s : Store) (cursor : Nat) (limit : Nat) : List Message × Bool :=
  let older := s.log.filter (fun m => m.timestamp < cursor)
  (older.drop (older.length - limit), decide (limit < older.length))

/-- A Message Store operation: an `append` attempt or a `clear_all`. -/
inductive StoreOp where
  | append (author : String) (kind : Kind) (body : String) (ts : Nat)
      (reply_to : Option Nat)
  | clear
deriving DecidableEq, Repr

/-- Runs a sequence of store operations, returning the final store and the
identifiers returned by the successful `append` calls, in order. -/
def runOps (s : Store) : List StoreOp → Store × List Nat
  | [] => (s, [])
  | StoreOp.append a k b t r :: rest =>
    match appendMsg s a k b t r with
    | .ok (s1, m) =>
      let res := runOps s1 rest
      (res.1, m.id :: res.2)
    | .error _ => runOps s rest
  | StoreOp.clear :: rest => runOps (clear_all s) rest

/-- The Message Store log is strictly ordered by creation timestamp
(§4.3: the log is time-ordered; new messages always sort after the
cursor). -/
def StrictByTime (l : List Message) : Prop :=
  l.Pairwise (fun a b => a.timestamp < b.timestamp)

instance (l : List Message) : Decidable (StrictByTime l) :=
  inferInstanceAs (Decidable (l.Pairwise (fun (a b : Message) => a.timestamp < b.timestamp)))

instance : Inhabited Message :=
  ⟨{ id := 0, author := "", body := "", kind := Kind.text, timestamp := 0,
     reply_to := none, reply_snapshot := none }⟩

/-- Repeated backward pagination, as the client drives it: each successive
cursor is the timestamp of the oldest message of the page just returned,
until `has_more` is false or a page comes back empty.  `fuel` bounds the
recursion.  Pages are concatenated oldest-first. -/
def paginate (s : Store) (n : Nat) : Nat → Nat → List Message
  | 0, _ => []
  | fuel + 1, t =>
    let page := (page_before s t n).1
    if page = [] then []
    else if (page_before s t n).2 then
      paginate s n fuel page.headI.timestamp ++ page
    else page

/-- A small concrete Message Store used to instantiate proved theorems. -/
def demoStore : Store :=
  { log :=
      [ { id := 1, author := "sana", body := "hi", kind := Kind.text,
          timestamp := 10, reply_to := none, reply_snapshot := none },
        { id := 2, author := "ayhan", body := "there", kind := Kind.text,
          timestamp := 20, reply_to := some 1,
          reply_snapshot := some { author := "sana", kind := Kind.text, body := "hi" } },
        { id := 3, author := "sana", body := "ok", kind := Kind.text,
          timestamp := 30, reply_to := none, reply_snapshot := none } ],
    nextId := 4 }

/-- Error of the `authenticate` operation (§4.1). -/
inductive AuthError where
  | InvalidCredentials
deriving DecidableEq, Repr

/-- Error of the `validate` operation (§4.1 / §7). -/
inductive ValidateError where
  | Unauthorized
deriving DecidableEq, Repr

/-- Modelled from the spec: the §3 Session record — token, principal,
creation time and last-seen time; the backend `app.py` holding it is not
under the shipped sources. -/
structure Session where
  token : String
  principal : String
  createdAt : Nat
  lastSeen : Nat
deriving DecidableEq, Repr

/-- Modelled from the spec: the §4.1 Identity & Session Store state — the
static credential configuration and the live sessions; the backend
`app.py` holding it is not under the shipped sources. -/
structure IdentityStore where
  creds : List (String × String)
  sessions : List Session
deriving DecidableEq, Repr

/-- Modelled from the spec: §4.1 `authenticate(username, credential)` — on
success any existing Session for that principal is invalidated first
(single-session-per-principal), then a new Session with the freshly drawn
token is created and returned.  The backend `app.py` implementing it is
not under the shipped sources; token randomness and Abuse Guard reporting
are kept outside the model (the fresh token is a parameter). -/
def authenticate (st : IdentityStore) (username credential newToken : String)
    (now : Nat) : Except AuthError (IdentityStore × Session) :=
  match st.creds.find? (fun p => p.1 == username) with
  | none => .error .InvalidCredentials
  | some p =>
    if p.2 == credential then
      let ns : Session :=
        { token := newToken, principal := username, createdAt := now, lastSeen := now }
      .ok ({ st with
              sessions := ns :: st.sessions.filter (fun q => q.principal ≠ username) },
           ns)
    else .error .InvalidCredentials

/-- Modelled from the spec: §4.1 `validate(token)` — the Principal bound to
the token, or `Unauthorized`.  The backend `app.py` implementing it is not
under the shipped sources; token expiry is kept outside the model. -/
def validate (st : IdentityStore) (token : String) : Except ValidateError String :=
  match st.sessions.find? (fun q => q.token == token) with
  | some q => .ok q.principal
  | none => .error .Unauthorized

/-- Modelled from the spec: the §4.4 Connection Manager registry of
currently admitted connections, by connection identifier; the backend
`app.py` holding it is not under the shipped sources. -/
structure ConnMgr where
  conns : List Nat
deriving DecidableEq, Repr

/-- Modelled from the spec: §4.4 `broadcast(event, exclude?)` — the event
goes to every currently admitted connection except the optional excluded
one.  Returns the recipient connection identifiers.  The backend `app.py`
implementing it is not under the shipped sources. -/
def broadcast (cm : ConnMgr) (exclude : Option Nat) : List Nat :=
  match exclude with
  | some e => cm.conns.filter (fun c => c ≠ e)
  | none => cm.conns

/-- Modelled from the spec: §4.5 `chat_message` handling — append to the
Message Store, then broadcast `message_created` excluding the sender; on a
validation error nothing is appended and the error event goes only to the
sender (no broadcast).  Returns the new store and the recipients of the
`message_created` broadcast.  The backend `app.py` implementing it is not
under the shipped sources. -/
def handleChatMessage (cm : ConnMgr) (s : Store) (sender : Nat) (author : String)
    (kind : Kind) (body : String) (ts : Nat) (reply_to : Option Nat) :
    Store × List Nat :=
  match appendMsg s author kind body ts reply_to with
  | .ok res => (res.1, broadcast cm (some sender))
  | .error _ => (s, [])

/-- The payload of a client `chat_message` emit / `onSend` call:
`{msg, type, reply_to?}`. -/
structure OutPayload where
  msg : String
  type : Kind
  reply_to : Option Nat
deriving DecidableEq, Repr

/-- A message as the client scripts handle it (`id`, `user`, `msg`, `type`,
`timestamp` fields of the JavaScript message objects). -/
structure ClientMsg where
  id : Nat
  user : String
  msg : String
  type : Kind
  timestamp : Nat
deriving DecidableEq, Repr

/-- The `/api/upload` outcome as `uploadFile` observes it: the fetch or
JSON parse threw, or a parsed body whose `url` field may be absent. -/
inductive UploadOutcome where
  | netError
  | response (url : Option String)
deriving DecidableEq, Repr

/-- JavaScript truthiness of the optional `data.url` string field. -/
def jsTruthy : Option String → Bool
  | none => false
  | some s => !s.isEmpty

/-- From `src/unnamed/part_001` (`uploadFile`): posts the blob to
`/api/upload`; if the parsed response has a truthy `url`, calls
`onSend({msg: data.url, type})`, otherwise alerts and sends nothing; a
thrown error also sends nothing.  Returns the `onSend` payload, if any. -/
def uploadFile (outcome : UploadOutcome) (type : Kind) : Option OutPayload :=
  match outcome with
  | .netError => none
  | .response u =>
    if jsTruthy u then
      some { msg := u.getD "", type := type, reply_to := none }
    else none

/-- A child node of the chat window: the transient loading indicator or a
rendered message element. -/
inductive DomNode where
  | loadingIndicator
  | msgNode (m : ClientMsg)
deriving DecidableEq, Repr

/-- `chatWindow.insertBefore(div, loadingDiv.nextSibling)` while
`loadingDiv` is the first child: the new node lands directly after the
head of the child list. -/
def insertAfterHead (children : List DomNode) (d : DomNode) : List DomNode :=
  match children with
  | [] => [d]
  | c :: rest => c :: d :: rest

/-- From `src/unnamed/part_002` (`loadOlderMessages`): the loading
indicator is inserted as first child, each fetched message element is
inserted before `loadingDiv.nextSibling` in page order, and the indicator
is removed in the `finally` block.  Returns the chat window children after
the call. -/
def renderOlderPage (orig : List DomNode) (page : List ClientMsg) : List DomNode :=
  (page.foldl (fun cs m => insertAfterHead cs (DomNode.msgNode m))
    (DomNode.loadingIndicator :: orig)).tail

/-- Client pagination state from `src/unnamed/part_002`:
`isLoadingMessages` and `hasMoreMessages`. -/
structure PagingState where
  isLoading : Bool
  hasMore : Bool
deriving DecidableEq, Repr

/-- Events driving the client pagination state machine: the scroll
listener firing at `scrollTop === 0` (or any direct `loadOlderMessages`
call), a parsed `/api/messages/before` response, and a fetch error. -/
inductive PagingEvent where
  | trigger
  | response (msgs : List ClientMsg) (more : Bool)
  | fetchError
deriving DecidableEq, Repr

/-- One step of the client pagination logic from `src/unnamed/part_002`:
a trigger issues a request iff `!isLoadingMessages && hasMoreMessages`
(both the scroll listener and the `loadOlderMessages` guard check this);
a response sets `hasMoreMessages := result.has_more` when a nonempty
message array came back and `false` on an empty one, and the `finally`
block clears `isLoadingMessages`; a fetch error only clears
`isLoadingMessages`.  The Bool is whether this step issued a
`/api/messages/before` request. -/
def stepPaging (s : PagingState) : PagingEvent → PagingState × Bool
  | .trigger =>
    if !s.isLoading && s.hasMore then
      ({ isLoading := true, hasMore := s.hasMore }, true)
    else (s, false)
  | .response msgs more =>
    if msgs.isEmpty then ({ isLoading := false, hasMore := false }, false)
    else ({ isLoading := false, hasMore := more }, false)
  | .fetchError => ({ isLoading := false, hasMore := s.hasMore }, false)

/-- Runs the pagination state machine over a list of events, counting the
`/api/messages/before` requests issued. -/
def runPaging (s : PagingState) : List PagingEvent → PagingState × Nat
  | [] => (s, 0)
  | e :: tr =>
    let st := stepPaging s e
    let res := runPaging st.1 tr
    (res.1, (if st.2 then 1 else 0) + res.2)

/-- A trace is well formed when responses and fetch errors only arrive
while a request is outstanding (`isLoadingMessages` is true): the client
issues at most one request at a time and each `fetch` settles exactly
once. -/
def wellFormedTrace (s : PagingState) : List PagingEvent → Bool
  | [] => true
  | e :: tr =>
    (match e with
     | .trigger => true
     | .response _ _ => s.isLoading
     | .fetchError => s.isLoading) && wellFormedTrace (stepPaging s e).1 tr

/-- Client chat UI state around `window.sendMessage`
(`src/unnamed/part_002`): the input field value, `replyingToMessage`, and
whether the reply preview bar carries the `hidden` class. -/
structure ChatUIState where
  inputValue : String
  replyingTo : Option ClientMsg
  previewHidden : Bool
deriving DecidableEq, Repr

/-- From `src/unnamed/part_002` (`cancelReply`): clears `replyingToMessage`
and hides the reply preview bar. -/
def cancelReply (s : ChatUIState) : ChatUIState :=
  { s with replyingTo := none, previewHidden := true }

/-- From `src/unnamed/part_002` (`window.sendMessage`): trims the input; if
nonempty, emits `chat_message` with `reply_to := replyingToMessage.id`
when a reply target is active, clears the input and calls `cancelReply`;
with a blank input it returns without touching any state.  Returns the new
UI state and the emitted payload, if any. -/
def sendMessage (s : ChatUIState) : ChatUIState × Option OutPayload :=
  if strTrim s.inputValue = "" then (s, none)
  else
    ({ cancelReply s with inputValue := "" },
     some { msg := strTrim s.inputValue, type := Kind.text,
            reply_to := s.replyingTo.map (fun r => r.id) })

/-- A concrete client message used to instantiate proved theorems. -/
def demoReplyMsg : ClientMsg :=
  { id := 1, user := "sana", msg := "hi", type := Kind.text, timestamp := 10 }

/-- A chat UI state with a whitespace-only input and an active reply
target, used to instantiate proved theorems. -/
def demoUIBlank : ChatUIState :=
  { inputValue := " ", replyingTo := some demoReplyMsg, previewHidden := false }

/-- A chat UI state with a nonblank input and an active reply target, used
to instantiate proved theorems. -/
def demoUISend : ChatUIState :=
  { inputValue := "hi there", replyingTo := some demoReplyMsg, previewHidden := false }

/-- A small concrete Identity & Session Store used to instantiate proved
theorems. -/
def demoIdStore : IdentityStore :=
  { creds := [("alice", "pw")],
    sessions := [{ token := "t1", principal := "alice", createdAt := 0, lastSeen := 0 }] }

theorem appendMsg_ok_id {s : Store} {a : String} {k : Kind} {b : String}
    {t : Nat} {r : Option Nat} {s1 : Store} {m : Message}
    (h : appendMsg s a k b t r = .ok (s1, m)) :
    m.id = s.nextId ∧ s1.nextId = s.nextId + 1 ∧ s1.log = s.log ++ [m] := by
  unfold appendMsg at h
  by_cases hc : k = Kind.text ∧ strTrim b = ""
  · simp [hc] at h
  · simp only [if_neg hc] at h
    cases r with
    | none =>
      simp only [Except.ok.injEq, Prod.mk.injEq] at h
      obtain ⟨hs, hm⟩ := h
      subst hs; subst hm
      exact ⟨rfl, rfl, rfl⟩
    | some rid =>
      cases hfind : findById s rid with
      | none => simp [hfind] at h
      | some p =>
        simp only [hfind, Except.ok.injEq, Prod.mk.injEq] at h
        obtain ⟨hs, hm⟩ := h
        subst hs; subst hm
        exact ⟨rfl, rfl, rfl⟩

theorem runOps_ids_ge (ops : List StoreOp) (s : Store) :
    ∀ x ∈ (runOps s ops).2, s.nextId ≤ x := by
  induction ops generalizing s with
  | nil => intro x hx; simp [runOps] at hx
  | cons op rest ih =>
    intro x hx
    cases op with
    | append a k b t r =>
      cases happ : appendMsg s a k b t r with
      | ok res =>
        obtain ⟨s1, m⟩ := res
        obtain ⟨hid, hnext, _⟩ := appendMsg_ok_id happ
        simp only [runOps, happ, List.mem_cons] at hx
        rcases hx with hx | hx
        · omega
        · have := ih s1 x hx
          omega
      | error e =>
        simp only [runOps, happ] at hx
        exact ih s x hx
    | clear =>
      simp only [runOps] at hx
      have := ih (clear_all s) x hx
      simpa [clear_all] using this

/-- C1: across any sequence of Message Store operations — `append` attempts
interleaved with `clear_all` calls — the identifiers returned by the
successful appends are strictly increasing, and no identifier is ever
assigned twice (`clear_all` does not reset the identifier counter). -/
theorem append_ids_strictly_increasing (s : Store) (ops : List StoreOp) :
    (runOps s ops).2.Pairwise (· < ·) ∧ (runOps s ops).2.Nodup := by
  have main : ∀ ops : List StoreOp, ∀ s : Store, (runOps s ops).2.Pairwise (· < ·) := by
    intro ops
    induction ops with
    | nil => intro s; simp [runOps]
    | cons op rest ih =>
      intro s
      cases op with
      | append a k b t r =>
        cases happ : appendMsg s a k b t r with
        | ok res =>
          obtain ⟨s1, m⟩ := res
          obtain ⟨hid, hnext, _⟩ := appendMsg_ok_id happ
          simp only [runOps, happ]
          refine List.pairwise_cons.mpr ⟨?_, ih s1⟩
          intro x hx
          have := runOps_ids_ge rest s1 x hx
          omega
        | error e =>
          simp only [runOps, happ]
          exact ih s
      | clear =>
        simp only [runOps]
        exact ih (clear_all s)
  refine ⟨main ops s, ?_⟩
  exact (main ops s).imp (fun h => Nat.ne_of_lt h)

theorem sorted_filter_lt_getElem :
    ∀ (l : List Message), StrictByTime l → ∀ (k : Nat) (h : k < l.length),
      l.filter (fun x => x.timestamp < l[k].timestamp) = l.take k := by
  intro l
  induction l with
  | nil => intro _ k h; simp at h
  | cons a tl ih =>
    intro hs k h
    cases k with
    | zero =>
      simp only [List.getElem_cons_zero, List.take_zero]
      apply List.filter_eq_nil_iff.mpr
      intro x hx
      simp only [decide_eq_true_eq, not_lt]
      rcases List.mem_cons.mp hx with hxa | hxtl
      · subst hxa; exact le_refl _
      · exact le_of_lt ((List.pairwise_cons.mp hs).1 x hxtl)
    | succ k =>
      have h2 : k < tl.length := by simpa using h
      have hhead : a.timestamp < tl[k].timestamp :=
        (List.pairwise_cons.mp hs).1 _ (List.getElem_mem h2)
      simp only [List.getElem_cons_succ, List.filter_cons, List.take_succ_cons]
      rw [if_pos (by simpa using hhead)]
      rw [ih (List.pairwise_cons.mp hs).2 k h2]

theorem sorted_filter_lt_eq_take :
    ∀ (l : List Message), StrictByTime l → ∀ (t : Nat),
      ∃ k, l.filter (fun x => x.timestamp < t) = l.take k := by
  intro l
  induction l with
  | nil => intro _ t; exact ⟨0, rfl⟩
  | cons a tl ih =>
    intro hs t
    by_cases ha : a.timestamp < t
    · obtain ⟨k, hk⟩ := ih (List.pairwise_cons.mp hs).2 t
      refine ⟨k + 1, ?_⟩
      simp only [List.filter_cons, List.take_succ_cons]
      rw [if_pos (by simpa using ha), hk]
    · refine ⟨0, ?_⟩
      simp only [List.take_zero]
      apply List.filter_eq_nil_iff.mpr
      intro x hx
      simp only [decide_eq_true_eq, not_lt]
      rcases List.mem_cons.mp hx with hxa | hxtl
      · subst hxa; omega
      · have := (List.pairwise_cons.mp hs).1 x hxtl
        omega

theorem paginate_eq_filter (s : Store) (n : Nat) (hs : StrictByTime s.log)
    (hn : 0 < n) :
    ∀ (fuel t : Nat), (s.log.filter (fun m => m.timestamp < t)).length ≤ fuel →
      paginate s n fuel t = s.log.filter (fun m => m.timestamp < t) := by
  intro fuel
  induction fuel with
  | zero =>
    intro t hle
    have hnil : s.log.filter (fun m => m.timestamp < t) = [] :=
      List.length_eq_zero.mp (Nat.le_zero.mp hle)
    simp [paginate, hnil]
  | succ fuel ih =>
    intro t hle
    have holder : StrictByTime (s.log.filter (fun m => m.timestamp < t)) :=
      List.Pairwise.filter _ hs
    generalize holderdef : s.log.filter (fun m => m.timestamp < t) = older at *
    have hpb1 : (page_before s t n).1 = older.drop (older.length - n) := by
      simp [page_before, holderdef]
    have hpb2 : (page_before s t n).2 = decide (n < older.length) := by
      simp [page_before, holderdef]
    rcases eq_or_ne older [] with hnil | hne
    · subst hnil
      simp [paginate, hpb1]
    · have hL : 0 < older.length := List.length_pos.mpr hne
      have hk : older.length - n < older.length := by omega
      obtain ⟨m0, hm0⟩ : ∃ m0, older[older.length - n] = m0 := ⟨_, rfl⟩
      have hdropeq : older.drop (older.length - n) =
          older[older.length - n] :: older.drop (older.length - n + 1) :=
        List.drop_eq_getElem_cons hk
      rw [hm0] at hdropeq
      have hpagene : older.drop (older.length - n) ≠ [] := by
        rw [hdropeq]; exact List.cons_ne_nil _ _
      simp only [paginate, hpb1, hpb2, if_neg hpagene]
      by_cases hm : n < older.length
      · rw [if_pos (by simpa using hm)]
        have hmem : m0 ∈ older := by
          have := List.getElem_mem hk
          rw [hm0] at this; exact this
        have hct : m0.timestamp < t := by
          rw [← holderdef] at hmem
          have := List.of_mem_filter hmem
          simpa using this
        have hfc : s.log.filter (fun x => x.timestamp < m0.timestamp) =
            older.take (older.length - n) := by
          have h1 : older.filter (fun x => x.timestamp < m0.timestamp) =
              s.log.filter (fun x => x.timestamp < m0.timestamp) := by
            conv => lhs; rw [← holderdef]
            rw [List.filter_filter]
            apply List.filter_congr
            intro x hx
            by_cases hxc : x.timestamp < m0.timestamp
            · have hxt : x.timestamp < t := lt_trans hxc hct
              simp [hxc, hxt]
            · simp [hxc]
          rw [← h1]
          have := sorted_filter_lt_getElem older holder (older.length - n) hk
          rw [hm0] at this
          exact this
        have hlen : (s.log.filter (fun x => x.timestamp < m0.timestamp)).length ≤ fuel := by
          rw [hfc, List.length_take]
          omega
        have hih := ih m0.timestamp hlen
        rw [hfc] at hih
        rw [hdropeq]
        simp only [List.headI_cons]
        rw [hih, ← hdropeq, List.take_append_drop]
      · rw [if_neg (by simpa using hm)]
        have hzero : older.length - n = 0 := by omega
        rw [hzero]
        simp

/-- C2: for every cursor timestamp `t` and limit `n`, `page_before t n`
returns at most `n` messages, each with timestamp strictly below `t`, in
ascending order, with a `has_more` flag meaning that older messages remain;
and concatenating successive pages — each next cursor being the timestamp
of the oldest message just returned — reconstructs the contiguous prefix
of the history strictly older than `t`, with no duplicates and no gaps,
until `has_more` is false. -/
theorem page_before_correct (s : Store) (t n fuel : Nat)
    (hs : StrictByTime s.log) (hn : 0 < n)
    (hfuel : (s.log.filter (fun m => m.timestamp < t)).length ≤ fuel) :
    (page_before s t n).1.length ≤ n ∧
    (∀ m ∈ (page_before s t n).1, m.timestamp < t) ∧
    StrictByTime (page_before s t n).1 ∧
    ((page_before s t n).2 = true ↔
      n < (s.log.filter (fun m => m.timestamp < t)).length) ∧
    (∃ k, s.log.filter (fun m => m.timestamp < t) = s.log.take k) ∧
    paginate s n fuel t = s.log.filter (fun m => m.timestamp < t) := by
  refine ⟨?_, ?_, ?_, ?_, ?_, ?_⟩
  · simp only [page_before, List.length_drop]
    omega
  · intro m hm
    simp only [page_before] at hm
    have hm2 := List.mem_of_mem_drop hm
    have := List.of_mem_filter hm2
    simpa using this
  · have holder : StrictByTime (s.log.filter (fun m => m.timestamp < t)) :=
      List.Pairwise.filter _ hs
    simp only [page_before]
    exact List.Pairwise.sublist (List.drop_sublist _ _) holder
  · simp [page_before]
  · exact sorted_filter_lt_eq_take s.log hs t
  · exact paginate_eq_filter s n hs hn fuel t hfuel

theorem page_before_correct_witness :
    (StrictByTime demoStore.log ∧ 0 < 2 ∧
      (demoStore.log.filter (fun m => m.timestamp < 100)).length ≤ 3) ∧
    ((page_before demoStore 100 2).1.length ≤ 2 ∧
     (∀ m ∈ (page_before demoStore 100 2).1, m.timestamp < 100) ∧
     StrictByTime (page_before demoStore 100 2).1 ∧
     ((page_before demoStore 100 2).2 = true ↔
       2 < (demoStore.log.filter (fun m => m.timestamp < 100)).length) ∧
     (∃ k, demoStore.log.filter (fun m => m.timestamp < 100) = demoStore.log.take k) ∧
     paginate demoStore 2 3 100 = demoStore.log.filter (fun m => m.timestamp < 100)) :=
  ⟨⟨by decide, by decide, by decide⟩,
   page_before_correct demoStore 100 2 3 (by decide) (by decide) (by decide)⟩

/-- C3: an `append` whose `reply_to` is present succeeds only when
`reply_to` is the identifier of a message appended strictly earlier (it is
in the log, with a smaller identifier than the new message); when
`reply_to` is dangling (no such identifier in the log) or a forward or
self reference (an identifier at or above the counter), `append` fails
with `InvalidReply` and appends nothing (no store is produced). -/
theorem append_reply_validation (s : Store) (a : String) (k : Kind) (b : String)
    (ts r : Nat) (hwf : ∀ m ∈ s.log, m.id < s.nextId) :
    (∀ s1 m, appendMsg s a k b ts (some r) = .ok (s1, m) →
        ∃ p ∈ s.log, p.id = r ∧ p.id < m.id) ∧
    (¬(k = Kind.text ∧ strTrim b = "") →
      ((∀ p ∈ s.log, p.id ≠ r) →
          appendMsg s a k b ts (some r) = .error .InvalidReply) ∧
      (s.nextId ≤ r → appendMsg s a k b ts (some r) = .error .InvalidReply)) := by
  constructor
  · intro s1 m h
    unfold appendMsg at h
    by_cases hc : k = Kind.text ∧ strTrim b = ""
    · simp [hc] at h
    · simp only [if_neg hc] at h
      cases hfind : findById s r with
      | none => simp [hfind] at h
      | some p =>
        simp only [hfind, Except.ok.injEq, Prod.mk.injEq] at h
        refine ⟨p, List.mem_of_find?_eq_some hfind, ?_, ?_⟩
        · have := List.find?_some hfind
          simpa using this
        · have hpid : p.id < s.nextId := hwf p (List.mem_of_find?_eq_some hfind)
          have hmid : m.id = s.nextId := by
            rw [← h.2]
          omega
  · intro hb
    have herr : (∀ p ∈ s.log, p.id ≠ r) →
        appendMsg s a k b ts (some r) = .error .InvalidReply := by
      intro hnone
      have hfind : findById s r = none := by
        apply List.find?_eq_none.mpr
        intro p hp
        simpa using hnone p hp
      unfold appendMsg
      rw [if_neg hb]
      simp [hfind]
    refine ⟨herr, ?_⟩
    intro hge
    apply herr
    intro p hp
    have := hwf p hp
    omega

theorem append_reply_validation_witness :
    (∀ m ∈ demoStore.log, m.id < demoStore.nextId) ∧
    ((∀ s1 m, appendMsg demoStore "sana" Kind.text "yo" 40 (some 5) = .ok (s1, m) →
        ∃ p ∈ demoStore.log, p.id = 5 ∧ p.id < m.id) ∧
     (¬(Kind.text = Kind.text ∧ strTrim "yo" = "") →
       ((∀ p ∈ demoStore.log, p.id ≠ 5) →
           appendMsg demoStore "sana" Kind.text "yo" 40 (some 5) =
             .error .InvalidReply) ∧
       (demoStore.nextId ≤ 5 → appendMsg demoStore "sana" Kind.text "yo" 40 (some 5) =
             .error .InvalidReply))) :=
  ⟨by decide, append_reply_validation demoStore "sana" Kind.text "yo" 40 5 (by decide)⟩

/-- C4: at most one live Session per principal — when authentication
succeeds for principal `P` while `P` already holds a live Session (its old
token validates to `P`), the prior Session is invalidated by the new
authentication, so validating the old token afterwards fails with
`Unauthorized`. -/
theorem single_session_per_principal (st : IdentityStore)
    (P c oldTok newTok : String) (now : Nat) (st1 : IdentityStore) (ns : Session)
    (hnodup : (st.sessions.map Session.token).Nodup)
    (hold : validate st oldTok = .ok P)
    (hne : newTok ≠ oldTok)
    (hauth : authenticate st P c newTok now = .ok (st1, ns)) :
    validate st1 oldTok = .error .Unauthorized := by
  obtain ⟨q0, hq0find⟩ : ∃ q0, st.sessions.find? (fun q => q.token == oldTok) = some q0 := by
    unfold validate at hold
    cases hfind : st.sessions.find? (fun q => q.token == oldTok) with
    | none => rw [hfind] at hold; exact absurd hold (by simp)
    | some q0 => exact ⟨q0, rfl⟩
  have hq0P : q0.principal = P := by
    unfold validate at hold
    rw [hq0find] at hold
    simpa using hold
  have hq0tok : q0.token = oldTok := by
    have := List.find?_some hq0find
    simpa using this
  have hq0mem : q0 ∈ st.sessions := List.mem_of_find?_eq_some hq0find
  unfold authenticate at hauth
  cases hcred : st.creds.find? (fun p => p.1 == P) with
  | none => rw [hcred] at hauth; exact absurd hauth (by simp)
  | some pr =>
    rw [hcred] at hauth
    by_cases hpw : pr.2 == c
    · simp only [if_pos hpw, Except.ok.injEq, Prod.mk.injEq] at hauth
      obtain ⟨hst1, hns⟩ := hauth
      subst hst1
      unfold validate
      set ns0 : Session :=
        { token := newTok, principal := P, createdAt := now, lastSeen := now } with hns0
      have hcons : (ns0 :: st.sessions.filter (fun q => q.principal ≠ P)).find?
          (fun q => q.token == oldTok) = none := by
        rw [List.find?_cons_of_neg]
        · apply List.find?_eq_none.mpr
          intro q hq
          have hqmem := (List.mem_filter.mp hq).1
          have hqP : q.principal ≠ P := by
            have := (List.mem_filter.mp hq).2
            simpa using this
          simp only [beq_iff_eq]
          intro hqtok
          apply hqP
          have hq0 : q = q0 := by
            apply List.inj_on_of_nodup_map hnodup hqmem hq0mem
            rw [hqtok, hq0tok]
          rw [hq0, hq0P]
        · simp [hns0, hne]
      simp only [hcons]
    · simp [hpw] at hauth

theorem single_session_per_principal_witness :
    ((demoIdStore.sessions.map Session.token).Nodup ∧
     validate demoIdStore "t1" = .ok "alice" ∧
     "t2" ≠ "t1" ∧
     authenticate demoIdStore "alice" "pw" "t2" 5 =
       .ok ({ creds := [("alice", "pw")],
              sessions := [{ token := "t2", principal := "alice",
                             createdAt := 5, lastSeen := 5 }] },
            { token := "t2", principal := "alice", createdAt := 5, lastSeen := 5 })) ∧
    validate { creds := [("alice", "pw")],
               sessions := [{ token := "t2", principal := "alice",
                              createdAt := 5, lastSeen := 5 }] } "t1" =
      .error .Unauthorized :=
  ⟨⟨by decide, rfl, by decide, rfl⟩,
   single_session_per_principal demoIdStore "alice" "pw" "t1" "t2" 5
     { creds := [("alice", "pw")],
       sessions := [{ token := "t2", principal := "alice",
                      createdAt := 5, lastSeen := 5 }] }
     { token := "t2", principal := "alice", createdAt := 5, lastSeen := 5 }
     (by decide) rfl (by decide) rfl⟩

/-- C5: when an admitted connection sends a `chat_message`, the resulting
`message_created` broadcast is never delivered back to the sending
connection, and — whenever the append succeeds — it is delivered to every
other currently admitted connection. -/
theorem chat_broadcast_excludes_sender (cm : ConnMgr) (s : Store) (sender : Nat)
    (a : String) (k : Kind) (b : String) (ts : Nat) (r : Option Nat) :
    sender ∉ (handleChatMessage cm s sender a k b ts r).2 ∧
    (∀ res, appendMsg s a k b ts r = .ok res →
      ∀ c ∈ cm.conns, c ≠ sender →
        c ∈ (handleChatMessage cm s sender a k b ts r).2) := by
  constructor
  · cases happ : appendMsg s a k b ts r with
    | ok res => simp [handleChatMessage, happ, broadcast]
    | error e => simp [handleChatMessage, happ]
  · intro res happ c hc hcne
    simp [handleChatMessage, happ, broadcast, List.mem_filter, hc, hcne]

theorem chat_broadcast_excludes_sender_witness :
    2 ∉ (handleChatMessage ⟨[1, 2, 3]⟩ demoStore 2 "sana" Kind.text "hello" 40 none).2 ∧
    3 ∈ (handleChatMessage ⟨[1, 2, 3]⟩ demoStore 2 "sana" Kind.text "hello" 40 none).2 :=
  ⟨(chat_broadcast_excludes_sender ⟨[1, 2, 3]⟩ demoStore 2 "sana" Kind.text "hello" 40
      none).1,
   (chat_broadcast_excludes_sender ⟨[1, 2, 3]⟩ demoStore 2 "sana" Kind.text "hello" 40
      none).2
     ({ log := demoStore.log ++
          [{ id := 4, author := "sana", body := "hello", kind := Kind.text,
             timestamp := 40, reply_to := none, reply_snapshot := none }],
        nextId := 5 },
      { id := 4, author := "sana", body := "hello", kind := Kind.text,
        timestamp := 40, reply_to := none, reply_snapshot := none })
     rfl 3 (by decide) (by decide)⟩

/-- C6: an `append` with kind `text` whose body is empty or consists only
of whitespace fails with `EmptyBody`; under the `chat_message` handler
nothing is appended to the log and nothing is broadcast. -/
theorem append_empty_body (s : Store) (cm : ConnMgr) (sender : Nat)
    (a b : String) (ts : Nat) (r : Option Nat) (hb : strTrim b = "") :
    appendMsg s a Kind.text b ts r = .error .EmptyBody ∧
    (handleChatMessage cm s sender a Kind.text b ts r).1 = s ∧
    (handleChatMessage cm s sender a Kind.text b ts r).2 = [] := by
  have h : appendMsg s a Kind.text b ts r = .error .EmptyBody := by
    unfold appendMsg
    rw [if_pos ⟨rfl, hb⟩]
  exact ⟨h, by simp [handleChatMessage, h], by simp [handleChatMessage, h]⟩

theorem append_empty_body_witness :
    (strTrim "   " = "") ∧
    (appendMsg demoStore "sana" Kind.text "   " 40 none = .error .EmptyBody ∧
     (handleChatMessage ⟨[1, 2]⟩ demoStore 1 "sana" Kind.text "   " 40 none).1 =
       demoStore ∧
     (handleChatMessage ⟨[1, 2]⟩ demoStore 1 "sana" Kind.text "   " 40 none).2 = []) :=
  ⟨by decide, append_empty_body demoStore ⟨[1, 2]⟩ 1 "sana" "   " 40 none (by decide)⟩

/-- C7: a media send never carries an unresolved body — `uploadFile` calls
`onSend` only after the upload completed with a truthy reference URL, and
the payload body is exactly that already-resolved URL; when the upload
fails (the fetch threw, or the response carries no `url`), no send
occurs. -/
theorem upload_resolves_before_send (outcome : UploadOutcome) (t : Kind) :
    (∀ p, uploadFile outcome t = some p →
      ∃ url, outcome = UploadOutcome.response (some url) ∧ url ≠ "" ∧
        p.msg = url ∧ p.type = t) ∧
    uploadFile .netError t = none ∧
    uploadFile (.response none) t = none := by
  refine ⟨?_, rfl, rfl⟩
  intro p hp
  cases outcome with
  | netError => simp [uploadFile] at hp
  | response u =>
    cases u with
    | none => simp [uploadFile, jsTruthy] at hp
    | some url =>
      by_cases hurl : url.isEmpty
      · simp [uploadFile, jsTruthy, hurl] at hp
      · refine ⟨url, rfl, ?_, ?_, ?_⟩
        · intro h
          subst h
          exact absurd hurl (by decide)
        · simp [uploadFile, jsTruthy, hurl] at hp
          rw [← hp]
        · simp [uploadFile, jsTruthy, hurl] at hp
          rw [← hp]

theorem upload_resolves_before_send_witness :
    (∀ p, uploadFile (.response (some "/uploads/rec.webm")) Kind.audio = some p →
      ∃ url, (UploadOutcome.response (some "/uploads/rec.webm")) =
          UploadOutcome.response (some url) ∧ url ≠ "" ∧
        p.msg = url ∧ p.type = Kind.audio) ∧
    uploadFile .netError Kind.audio = none ∧
    uploadFile (.response none) Kind.audio = none :=
  upload_resolves_before_send (.response (some "/uploads/rec.webm")) Kind.audio

theorem renderOlderPage_foldl (page : List ClientMsg) :
    ∀ acc : List DomNode,
      page.foldl (fun cs m => insertAfterHead cs (DomNode.msgNode m))
          (DomNode.loadingIndicator :: acc) =
        DomNode.loadingIndicator :: ((page.reverse.map DomNode.msgNode) ++ acc) := by
  induction page with
  | nil => intro acc; simp
  | cons m ms ih =>
    intro acc
    simp only [List.foldl_cons]
    rw [show insertAfterHead (DomNode.loadingIndicator :: acc) (DomNode.msgNode m) =
        DomNode.loadingIndicator :: DomNode.msgNode m :: acc from rfl]
    rw [ih (DomNode.msgNode m :: acc)]
    simp

/-- C8: `loadOlderMessages` inserts each fetched message element directly
after the loading indicator (`insertBefore(div, loadingDiv.nextSibling)`),
so a page of two or more messages delivered in ascending timestamp order
is rendered at the top of the chat window in reversed (descending) order,
above the previously rendered children. -/
theorem older_page_rendered_reversed (orig : List DomNode) (page : List ClientMsg)
    (hlen : 2 ≤ page.length)
    (hasc : page.Pairwise (fun a b => a.timestamp ≤ b.timestamp)) :
    renderOlderPage orig page = (page.reverse.map DomNode.msgNode) ++ orig ∧
    page.reverse.Pairwise (fun a b => b.timestamp ≤ a.timestamp) := by
  constructor
  · unfold renderOlderPage
    rw [renderOlderPage_foldl page orig]
    rfl
  · exact List.pairwise_reverse.mpr hasc

theorem older_page_rendered_reversed_witness :
    (2 ≤ ([⟨1, "sana", "a", Kind.text, 10⟩,
           ⟨2, "ayhan", "b", Kind.text, 20⟩] : List ClientMsg).length ∧
     ([⟨1, "sana", "a", Kind.text, 10⟩,
       ⟨2, "ayhan", "b", Kind.text, 20⟩] : List ClientMsg).Pairwise
        (fun a b => a.timestamp ≤ b.timestamp)) ∧
    (renderOlderPage [DomNode.msgNode ⟨3, "sana", "c", Kind.text, 30⟩]
        [⟨1, "sana", "a", Kind.text, 10⟩, ⟨2, "ayhan", "b", Kind.text, 20⟩] =
      (([⟨1, "sana", "a", Kind.text, 10⟩,
         ⟨2, "ayhan", "b", Kind.text, 20⟩] : List ClientMsg).reverse.map
          DomNode.msgNode) ++ [DomNode.msgNode ⟨3, "sana", "c", Kind.text, 30⟩] ∧
     ([⟨1, "sana", "a", Kind.text, 10⟩,
       ⟨2, "ayhan", "b", Kind.text, 20⟩] : List ClientMsg).reverse.Pairwise
        (fun a b => b.timestamp ≤ a.timestamp)) :=
  ⟨⟨by decide, by decide⟩,
   older_page_rendered_reversed [DomNode.msgNode ⟨3, "sana", "c", Kind.text, 30⟩]
     [⟨1, "sana", "a", Kind.text, 10⟩, ⟨2, "ayhan", "b", Kind.text, 20⟩]
     (by decide) (by decide)⟩

theorem runPaging_done (tr : List PagingEvent) :
    ∀ s : PagingState, s.hasMore = false → s.isLoading = false →
      wellFormedTrace s tr = true →
      (runPaging s tr).2 = 0 ∧ (runPaging s tr).1.hasMore = false ∧
        (runPaging s tr).1.isLoading = false := by
  induction tr with
  | nil => intro s h1 h2 _; exact ⟨rfl, h1, h2⟩
  | cons e tr ih =>
    intro s h1 h2 hwf
    cases e with
    | trigger =>
      have hstep : stepPaging s .trigger = (s, false) := by
        simp [stepPaging, h1]
      simp only [wellFormedTrace, Bool.true_and] at hwf
      rw [hstep] at hwf
      have hrest := ih s h1 h2 hwf
      simp only [runPaging, hstep]
      simpa using hrest
    | response msgs more =>
      simp only [wellFormedTrace, Bool.and_eq_true] at hwf
      rw [h2] at hwf
      exact absurd hwf.1 (by simp)
    | fetchError =>
      simp only [wellFormedTrace, Bool.and_eq_true] at hwf
      rw [h2] at hwf
      exact absurd hwf.1 (by simp)

/-- C9: once a `/api/messages/before` response arrives with an empty
messages array or with `has_more` false, the client sets `hasMoreMessages`
to false, that response step issues no request, and afterwards — under any
well-formed continuation of events — neither the scroll-to-top listener
nor `loadOlderMessages` ever issues another `/api/messages/before`
request, and `hasMoreMessages` stays false. -/
theorem pagination_stops_after_exhausted (s : PagingState)
    (msgs : List ClientMsg) (more : Bool) (tr : List PagingEvent)
    (hload : s.isLoading = true)
    (hdone : msgs = [] ∨ more = false)
    (hwf : wellFormedTrace (stepPaging s (.response msgs more)).1 tr = true) :
    (stepPaging s (.response msgs more)).1.hasMore = false ∧
    (stepPaging s (.response msgs more)).2 = false ∧
    (runPaging (stepPaging s (.response msgs more)).1 tr).2 = 0 ∧
    (runPaging (stepPaging s (.response msgs more)).1 tr).1.hasMore = false := by
  have hstate : (stepPaging s (.response msgs more)).1.hasMore = false ∧
      (stepPaging s (.response msgs more)).1.isLoading = false := by
    rcases hdone with h | h
    · subst h; simp [stepPaging]
    · subst h
      by_cases hm : msgs.isEmpty <;> simp [stepPaging, hm]
  have hnoreq : (stepPaging s (.response msgs more)).2 = false := by
    by_cases hm : msgs.isEmpty <;> simp [stepPaging, hm]
  have hrun := runPaging_done tr _ hstate.1 hstate.2 hwf
  exact ⟨hstate.1, hnoreq, hrun.1, hrun.2.1⟩

theorem pagination_stops_after_exhausted_witness :
    ((⟨true, true⟩ : PagingState).isLoading = true ∧
     (([] : List ClientMsg) = [] ∨ true = false) ∧
     wellFormedTrace (stepPaging ⟨true, true⟩ (.response [] true)).1
       [PagingEvent.trigger, PagingEvent.trigger] = true) ∧
    ((stepPaging (⟨true, true⟩ : PagingState) (.response [] true)).1.hasMore = false ∧
     (stepPaging (⟨true, true⟩ : PagingState) (.response [] true)).2 = false ∧
     (runPaging (stepPaging (⟨true, true⟩ : PagingState) (.response [] true)).1
        [PagingEvent.trigger, PagingEvent.trigger]).2 = 0 ∧
     (runPaging (stepPaging (⟨true, true⟩ : PagingState) (.response [] true)).1
        [PagingEvent.trigger, PagingEvent.trigger]).1.hasMore = false) :=
  ⟨⟨by decide, Or.inl rfl, by decide⟩,
   pagination_stops_after_exhausted ⟨true, true⟩ [] true
     [PagingEvent.trigger, PagingEvent.trigger]
     (by decide) (Or.inl rfl) (by decide)⟩

/-- C10 counterexample: a `window.sendMessage` call with a whitespace-only
input while a reply target is active completes without clearing the reply
state — `replyingToMessage` stays set and the preview bar stays
visible. -/
theorem sendMessage_blank_keeps_reply :
    (sendMessage demoUIBlank).1.replyingTo = some demoReplyMsg ∧
    (sendMessage demoUIBlank).1.previewHidden = false := by
  decide

/-- C10 (amended): after every `window.sendMessage` call that actually
emits a message (nonblank trimmed input), the reply state is cleared —
`replyingToMessage` is null and the reply preview bar is hidden — so at
most the single message sent while a reply target was active carries that
`reply_to`: a send with no active reply target carries no `reply_to`, and
the send immediately following an emitting send carries no `reply_to`
unless `setReplyTo` ran again.  (The unamended claim fails for calls with
blank input, which return without clearing the reply state.) -/
theorem sendMessage_clears_reply (s : ChatUIState) :
    (∀ p, (sendMessage s).2 = some p →
      (sendMessage s).1.replyingTo = none ∧
      (sendMessage s).1.previewHidden = true ∧
      p.reply_to = s.replyingTo.map (fun r => r.id)) ∧
    (s.replyingTo = none → ∀ p, (sendMessage s).2 = some p → p.reply_to = none) ∧
    (∀ p q v, (sendMessage s).2 = some p →
      (sendMessage { (sendMessage s).1 with inputValue := v }).2 = some q →
      q.reply_to = none) := by
  by_cases h : strTrim s.inputValue = ""
  · refine ⟨?_, ?_, ?_⟩
    · intro p hp; simp [sendMessage, h] at hp
    · intro _ p hp; simp [sendMessage, h] at hp
    · intro p q v hp _; simp [sendMessage, h] at hp
  · have hsend : sendMessage s =
        ({ inputValue := "", replyingTo := none, previewHidden := true },
         some { msg := strTrim s.inputValue, type := Kind.text,
                reply_to := s.replyingTo.map (fun r => r.id) }) := by
      unfold sendMessage
      rw [if_neg h]
      rfl
    refine ⟨?_, ?_, ?_⟩
    · intro p hp
      rw [hsend] at hp ⊢
      simp only [Option.some.injEq] at hp
      subst hp
      exact ⟨rfl, rfl, rfl⟩
    · intro hnone p hp
      rw [hsend] at hp
      simp only [Option.some.injEq] at hp
      subst hp
      simp [hnone]
    · intro p q v hp hq
      rw [hsend] at hq
      by_cases h2 : strTrim v = ""
      · simp [sendMessage, h2] at hq
      · have hsend2 : sendMessage
            ({ inputValue := v, replyingTo := none, previewHidden := true }) =
            ({ inputValue := "", replyingTo := none, previewHidden := true },
             some { msg := strTrim v, type := Kind.text, reply_to := none }) := by
          unfold sendMessage
          rw [if_neg h2]
          rfl
        rw [hsend2] at hq
        simp only [Option.some.injEq] at hq
        subst hq
        rfl

theorem sendMessage_clears_reply_witness :
    (∀ p, (sendMessage demoUISend).2 = some p →
      (sendMessage demoUISend).1.replyingTo = none ∧
      (sendMessage demoUISend).1.previewHidden = true ∧
      p.reply_to = demoUISend.replyingTo.map (fun r => r.id)) ∧
    (demoUISend.replyingTo = none → ∀ p,
      (sendMessage demoUISend).2 = some p → p.reply_to = none) ∧
    (∀ p q v, (sendMessage demoUISend).2 = some p →
      (sendMessage { (sendMessage demoUISend).1 with inputValue := v }).2 = some q →
      q.reply_to = none) :=
  sendMessage_clears_reply demoUISend

end SecureChanel
